import Mathlib

/-!
Verification of the cash-flow / Monte Carlo engine (`app/engine.py`).

Modelling choices (shallow embedding):
* Python floats are modelled as rationals (`ℚ`); `round(x, n)` is modelled
  exactly as round-half-to-even on the scaled rational (`pyRound`), matching
  Python's documented rounding rule.
* Transaction dates (ISO `YYYY-MM-DD` strings parsed by `strptime`) are
  modelled as integer day numbers: for valid dates, parsing followed by
  comparison / `timedelta(days = w)` subtraction is exactly integer
  comparison / subtraction on day numbers.
* The process-wide `random` module state is modelled explicitly as a
  `RandState` (a seed together with a draw position) threaded through the
  functions; `random.seed s` resets it to `⟨s, 0⟩` and each `random.uniform`
  consumes one abstract unit draw `rngVal seed pos`.  The generator function
  `rngVal : ℤ → ℕ → ℚ` is a parameter: every theorem below holds for an
  arbitrary generator.
* Python `int` values that can be negative (`simulations`, seeds, dates) are
  `ℤ`; loop counters and day indices are `ℕ`.
-/

/-- Round-half-to-even on rationals, the rounding rule of Python `round`.
(`Rat.floor` is the executable floor; it agrees with `⌊·⌋`.) -/
def pyRound (q : ℚ) : ℤ :=
  if q - q.floor < 1/2 then q.floor
  else if 1/2 < q - q.floor then q.floor + 1
  else if q.floor % 2 = 0 then q.floor else q.floor + 1

/-- Python `round(x, n)` for `n` decimal digits, on rationals. -/
def pyRoundTo (n : ℕ) (q : ℚ) : ℚ :=
  (pyRound (q * 10 ^ n) : ℚ) / 10 ^ n

/-- Python `round(x, 2)` as used throughout the engine. -/
def roundQ2 (q : ℚ) : ℚ := pyRoundTo 2 q

/-- Python `round(x, 4)` as used for `probability_cashout`. -/
def roundQ4 (q : ℚ) : ℚ := pyRoundTo 4 q

/-! ## Data model -/

/-- One ledger record: `{"date": ..., "amount": ..., "type": ...}`. -/
structure Transaction where
  date : ℤ
  amount : ℚ
  type : String
deriving DecidableEq

/-- Result of `calculate_cash_flow`. -/
structure CashFlow where
  total_income : ℚ
  total_expense : ℚ
  current_balance : ℚ
deriving DecidableEq

/-! ## `calculate_cash_flow` (engine.py lines 5-21) -/

def calculate_cash_flow (transactions : List Transaction) : CashFlow :=
  let totals := transactions.foldl
    (fun (acc : ℚ × ℚ) tx =>
      if tx.type = "income" then (acc.1 + tx.amount, acc.2)
      else if tx.type = "expense" then (acc.1, acc.2 + tx.amount)
      else acc)
    (0, 0)
  { total_income := totals.1
    total_expense := totals.2
    current_balance := totals.1 - totals.2 }

/-! ## `estimate_burn_rate` (engine.py lines 24-52) -/

/-- Python `max(tx["parsed_date"] for tx in parsed_transactions)`; only meaningful for
nonempty input (Python `max` raises on an empty sequence). -/
def latestDate (transactions : List Transaction) : ℤ :=
  match transactions with
  | [] => 0
  | tx :: rest => rest.foldl (fun m t => max m t.date) tx.date

def estimate_burn_rate (transactions : List Transaction) (window_days : ℕ) : ℚ :=
  if transactions = [] then 0
  else
    let latest_date := latestDate transactions
    let window_start : ℤ := latest_date - window_days
    let expense_total := transactions.foldl
      (fun acc tx =>
        if tx.type = "expense" ∧ window_start ≤ tx.date then acc + tx.amount else acc)
      0
    let daily_burn := expense_total / (window_days : ℚ)
    roundQ2 daily_burn

/-! ## `estimate_runway` and `risk_level` (engine.py lines 55-72) -/

/-- A Python float that may be `float("inf")`: the runway value. -/
inductive Runway where
  | inf : Runway
  | fin : ℚ → Runway
deriving DecidableEq

def estimate_runway (current_balance daily_burn : ℚ) : Runway :=
  if daily_burn = 0 then Runway.inf
  else Runway.fin (roundQ2 (current_balance / daily_burn))

def risk_level (runway_days : Runway) : String :=
  match runway_days with
  | Runway.inf => "No Risk"
  | Runway.fin r =>
    if r < 7 then "High Risk 🔴"
    else if r < 21 then "Medium Risk 🟡"
    else "Low Risk 🟢"

/-! ## `apply_scenario_modifiers` (engine.py lines 252-278) -/

def apply_scenario_modifiers (transactions : List Transaction) (scenario : String) :
    List Transaction :=
  transactions.map (fun tx =>
    if scenario = "optimistic" then
      if tx.type = "income" then { tx with amount := tx.amount * 1.15 }
      else if tx.type = "expense" then { tx with amount := tx.amount * 0.95 }
      else tx
    else if scenario = "conservative" then
      if tx.type = "income" then { tx with amount := tx.amount * 0.85 }
      else if tx.type = "expense" then { tx with amount := tx.amount * 1.10 }
      else tx
    else tx)

/-! ## Random source model

The Python `random` module is a single process-wide generator.  `RandState`
records which seed it was last initialized from and how many unit draws have
been consumed since; `rngVal seed pos` is the value in `[0, 1]` of the
`pos`-th unit draw after `random.seed seed`.  `random.uniform a b` is
`a + (b - a) * u` for a unit draw `u` (CPython's definition). -/

structure RandState where
  seed : ℤ
  pos : ℕ
deriving DecidableEq

/-- One call of `random.uniform a b`: consumes one unit draw. -/
def uniformDraw (rngVal : ℤ → ℕ → ℚ) (a b : ℚ) (g : RandState) : ℚ × RandState :=
  (a + (b - a) * rngVal g.seed g.pos, ⟨g.seed, g.pos + 1⟩)

/-- One entry `{"day": d, "projected_balance": b}` of a projection. -/
structure ProjPoint where
  day : ℕ
  projected_balance : ℚ
deriving DecidableEq

/-- Mutable state of the day loop in `project_cash_flow`. -/
structure ProjState where
  balance : ℚ
  projection : List ProjPoint
  cashout : Option ℕ
  g : RandState
deriving DecidableEq

/-! ## `project_cash_flow` (engine.py lines 124-183; the later definition that
shadows the earlier one of the same name) -/

/-- Income pattern of the transactions: `(avg_income_per_income_day,
income_frequency)` computed from the per-date income sums (the Python dict
`income_dates`): the sum of its values is the total income amount and its
length is the number of distinct income dates. -/
def incomeStats (transactions : List Transaction) (window_days : ℕ) : ℚ × ℚ :=
  let incomeTxs := transactions.filter (fun tx => tx.type = "income")
  let numDates := (incomeTxs.map (fun tx => tx.date)).dedup.length
  if numDates ≠ 0 then
    (((incomeTxs.map (fun tx => tx.amount)).sum) / (numDates : ℚ),
      (numDates : ℚ) / (window_days : ℚ))
  else (0, 0)

/-- The body of `for day in range(1, projection_days + 1)`. -/
def projDay (rngVal : ℤ → ℕ → ℚ) (income_volatility burn_volatility : ℚ)
    (avg_income_per_income_day income_frequency daily_burn : ℚ)
    (s : ProjState) (day : ℕ) : ProjState :=
  let s1 :=
    if 0 < income_frequency then
      let income_expected := avg_income_per_income_day * income_frequency
      let d := uniformDraw rngVal (1 - income_volatility) (1 + income_volatility) s.g
      { s with balance := s.balance + income_expected * d.1, g := d.2 }
    else s
  let d2 := uniformDraw rngVal (1 - burn_volatility) (1 + burn_volatility) s1.g
  let newBalance := s1.balance - daily_burn * d2.1
  { balance := newBalance
    projection := s1.projection ++ [⟨day, roundQ2 newBalance⟩]
    cashout := if s1.cashout = none ∧ newBalance ≤ 0 then some day else s1.cashout
    g := d2.2 }

/-- Running the day loop for days `1 .. n` (in order). -/
def projLoop (rngVal : ℤ → ℕ → ℚ) (income_volatility burn_volatility : ℚ)
    (avg_income_per_income_day income_frequency daily_burn : ℚ)
    (init : ProjState) : ℕ → ProjState
  | 0 => init
  | n + 1 =>
    projDay rngVal income_volatility burn_volatility
      avg_income_per_income_day income_frequency daily_burn
      (projLoop rngVal income_volatility burn_volatility
        avg_income_per_income_day income_frequency daily_burn init n)
      (n + 1)

/-- The setup part of `project_cash_flow` (after the seed call and the
emptiness check): initial loop state for a nonempty transaction list.  `g0`
is the generator state after `random.seed` was (possibly) called. -/
def projInit (transactions : List Transaction) (g0 : RandState) : ProjState :=
  { balance := (calculate_cash_flow transactions).current_balance
    projection := []
    cashout := none
    g := g0 }

/-- Effect of `random.seed(seed)` when `seed is not None`, else no effect. -/
def seedEffect (seed : Option ℤ) (g : RandState) : RandState :=
  match seed with
  | some s => ⟨s, 0⟩
  | none => g

def project_cash_flow (rngVal : ℤ → ℕ → ℚ) (transactions : List Transaction)
    (projection_days window_days : ℕ) (income_volatility burn_volatility : ℚ)
    (seed : Option ℤ) (g : RandState) :
    (List ProjPoint × Option ℕ) × RandState :=
  let g0 := seedEffect seed g
  if transactions = [] then (([], none), g0)
  else
    let daily_burn := estimate_burn_rate transactions window_days
    let stats := incomeStats transactions window_days
    let final := projLoop rngVal income_volatility burn_volatility
      stats.1 stats.2 daily_burn (projInit transactions g0) projection_days
    ((final.projection, final.cashout), final.g)

/-! ## `run_monte_carlo_simulation` (engine.py lines 186-250) -/

/-- Value of `projection[-1]["projected_balance"] if projection else 0.0`. -/
def endingBalance (projection : List ProjPoint) : ℚ :=
  match projection.getLast? with
  | some pt => pt.projected_balance
  | none => 0

/-- The run loop of `run_monte_carlo_simulation`: runs `0 .. k-1` in order,
collecting ending balances and cashout days.  Run `i` uses the derived seed
`seed + i` when a base seed is set. -/
def mcLoop (rngVal : ℤ → ℕ → ℚ) (transactions : List Transaction)
    (projection_days window_days : ℕ) (income_volatility burn_volatility : ℚ)
    (seed : Option ℤ) : ℕ → RandState → List ℚ × List ℕ × RandState
  | 0, g => ([], [], g)
  | k + 1, g =>
    let prev := mcLoop rngVal transactions projection_days window_days
      income_volatility burn_volatility seed k g
    let sim_seed := seed.map (fun s => s + (k : ℤ))
    let r := project_cash_flow rngVal transactions projection_days window_days
      income_volatility burn_volatility sim_seed prev.2.2
    (prev.1 ++ [endingBalance r.1.1],
      prev.2.1 ++ (r.1.2).toList,
      r.2)

/-- Nearest-rank percentile over the ascending-sorted ending balances:
`endings_sorted[max(0, min(n - 1, int(round((p / 100) * (n - 1)))))]`,
`0.0` when there are no runs. -/
def percentile (endings_sorted : List ℚ) (p : ℚ) : ℚ :=
  if endings_sorted.length = 0 then 0
  else
    endings_sorted.getD
      (Int.toNat (max 0 (min ((endings_sorted.length : ℤ) - 1)
        (pyRound (p / 100 * ((endings_sorted.length : ℚ) - 1))))))
      0

/-- The result dict of `run_monte_carlo_simulation`. -/
structure Summary where
  simulations : ℤ
  projection_days : ℕ
  window_days : ℕ
  income_volatility : ℚ
  burn_volatility : ℚ
  probability_cashout : ℚ
  cashout_count : ℕ
  ending_balance_worst : ℚ
  ending_balance_median : ℚ
  ending_balance_best : ℚ
  ending_balance_p10 : ℚ
  ending_balance_p90 : ℚ
  avg_cashout_day : Option ℚ
  min_cashout_day : Option ℕ
  max_cashout_day : Option ℕ
deriving DecidableEq

def run_monte_carlo_simulation (rngVal : ℤ → ℕ → ℚ) (transactions : List Transaction)
    (simulations : ℤ) (projection_days window_days : ℕ)
    (income_volatility burn_volatility : ℚ) (seed : Option ℤ) (g : RandState) :
    Summary × RandState :=
  let runs := mcLoop rngVal transactions projection_days window_days
    income_volatility burn_volatility seed simulations.toNat g
  let endings := runs.1
  let cashouts := runs.2.1
  let endings_sorted := List.insertionSort (fun a b => a ≤ b) endings
  let n := endings_sorted.length
  let prob_cashout : ℚ :=
    if 0 < simulations then (cashouts.length : ℚ) / (simulations : ℚ) else 0
  ({ simulations := simulations
     projection_days := projection_days
     window_days := window_days
     income_volatility := income_volatility
     burn_volatility := burn_volatility
     probability_cashout := roundQ4 prob_cashout
     cashout_count := cashouts.length
     ending_balance_worst := if n ≠ 0 then roundQ2 (endings_sorted.getD 0 0) else 0
     ending_balance_median := roundQ2 (percentile endings_sorted 50)
     ending_balance_best := if n ≠ 0 then roundQ2 (endings_sorted.getD (n - 1) 0) else 0
     ending_balance_p10 := roundQ2 (percentile endings_sorted 10)
     ending_balance_p90 := roundQ2 (percentile endings_sorted 90)
     avg_cashout_day :=
       match cashouts with
       | [] => none
       | c :: cs => some (roundQ2 (((c :: cs).sum : ℚ) / ((c :: cs).length : ℚ)))
     min_cashout_day :=
       match cashouts with
       | [] => none
       | c :: cs => some (cs.foldl min c)
     max_cashout_day :=
       match cashouts with
       | [] => none
       | c :: cs => some (cs.foldl max c) }, runs.2.2)

/-! ## Specification-side definitions -/

/-- The scenario table of the specification (§4.4): multiplicative factor
applied to a transaction's amount by scenario and kind. -/
def scenarioFactor (scenario ty : String) : ℚ :=
  if scenario = "optimistic" then
    if ty = "income" then 1.15 else if ty = "expense" then 0.95 else 1
  else if scenario = "conservative" then
    if ty = "income" then 0.85 else if ty = "expense" then 1.10 else 1
  else 1

/-! ## Helper lemmas: rounding -/

theorem ratFloor_eq_floor (q : ℚ) : (q.floor : ℤ) = ⌊q⌋ := by
  rw [Rat.floor_def', Rat.floor_def]

theorem pyRound_le (q : ℚ) : (pyRound q : ℚ) ≤ q + 1/2 := by
  unfold pyRound
  rw [ratFloor_eq_floor]
  have hfl : ((⌊q⌋ : ℤ) : ℚ) ≤ q := Int.floor_le q
  have hfu : q < ((⌊q⌋ : ℤ) : ℚ) + 1 := Int.lt_floor_add_one q
  split_ifs with h1 h2 h3 <;> push_cast <;> linarith

theorem le_pyRound (q : ℚ) : q - 1/2 ≤ (pyRound q : ℚ) := by
  unfold pyRound
  rw [ratFloor_eq_floor]
  have hfl : ((⌊q⌋ : ℤ) : ℚ) ≤ q := Int.floor_le q
  have hfu : q < ((⌊q⌋ : ℤ) : ℚ) + 1 := Int.lt_floor_add_one q
  split_ifs with h1 h2 h3 <;> push_cast <;> linarith

theorem pyRound_mono {x y : ℚ} (hxy : x ≤ y) : pyRound x ≤ pyRound y := by
  by_contra hc
  push_neg at hc
  have h1 : pyRound y + 1 ≤ pyRound x := hc
  have hx : (pyRound x : ℚ) ≤ x + 1/2 := pyRound_le x
  have hy : y - 1/2 ≤ (pyRound y : ℚ) := le_pyRound y
  have hq : ((pyRound y : ℚ) + 1) ≤ (pyRound x : ℚ) := by exact_mod_cast h1
  have hxy2 : y ≤ x := by linarith
  have hxx : x = y := le_antisymm hxy hxy2
  subst hxx
  omega

theorem pyRound_intCast (k : ℤ) : pyRound (k : ℚ) = k := by
  unfold pyRound
  rw [ratFloor_eq_floor]
  simp [Int.floor_intCast]

theorem pyRoundTo_mono (n : ℕ) {x y : ℚ} (hxy : x ≤ y) : pyRoundTo n x ≤ pyRoundTo n y := by
  unfold pyRoundTo
  have hp : (0 : ℚ) < 10 ^ n := by positivity
  have h : pyRound (x * 10 ^ n) ≤ pyRound (y * 10 ^ n) :=
    pyRound_mono (by nlinarith)
  have h2 : ((pyRound (x * 10 ^ n) : ℤ) : ℚ) ≤ ((pyRound (y * 10 ^ n) : ℤ) : ℚ) := by
    exact_mod_cast h
  exact div_le_div_of_nonneg_right h2 hp.le

theorem pyRoundTo_intCast (n : ℕ) (k : ℤ) : pyRoundTo n (k : ℚ) = k := by
  unfold pyRoundTo
  have h : ((k : ℚ) * 10 ^ n) = ((k * 10 ^ n : ℤ) : ℚ) := by push_cast; ring
  rw [h, pyRound_intCast]
  have hp : ((10 : ℚ) ^ n) ≠ 0 := by positivity
  push_cast
  field_simp

theorem roundQ2_mono {x y : ℚ} (hxy : x ≤ y) : roundQ2 x ≤ roundQ2 y :=
  pyRoundTo_mono 2 hxy

theorem roundQ4_mono {x y : ℚ} (hxy : x ≤ y) : roundQ4 x ≤ roundQ4 y :=
  pyRoundTo_mono 4 hxy

theorem roundQ2_intCast (k : ℤ) : roundQ2 (k : ℚ) = k := pyRoundTo_intCast 2 k

theorem roundQ2_zero : roundQ2 0 = 0 := by
  have := pyRoundTo_intCast 2 0
  simpa [roundQ2] using this

theorem roundQ4_zero : roundQ4 0 = 0 := by
  have := pyRoundTo_intCast 4 0
  simpa [roundQ4] using this

theorem roundQ4_one : roundQ4 1 = 1 := by
  have := pyRoundTo_intCast 4 1
  simpa [roundQ4] using this

theorem roundQ2_natCast (k : ℕ) : roundQ2 (k : ℚ) = k := by
  have := pyRoundTo_intCast 2 (k : ℤ)
  simpa [roundQ2] using this

/-! ## Helper lemmas: lists -/

theorem foldl_if_add {α : Type} (p : α → Prop) [DecidablePred p] (f : α → ℚ) :
    ∀ (l : List α) (a : ℚ),
      l.foldl (fun acc x => if p x then acc + f x else acc) a =
        a + ((l.filter (fun x => decide (p x))).map f).sum := by
  intro l
  induction l with
  | nil => intro a; simp
  | cons x t ih =>
    intro a
    by_cases hx : p x
    · simp only [List.foldl_cons, if_pos hx]
      rw [ih]
      have hfil : (x :: t).filter (fun y => decide (p y)) =
          x :: t.filter (fun y => decide (p y)) := by
        simp [List.filter_cons, hx]
      rw [hfil]
      simp only [List.map_cons, List.sum_cons]
      ring
    · simp only [List.foldl_cons, if_neg hx]
      rw [ih]
      have hfil : (x :: t).filter (fun y => decide (p y)) =
          t.filter (fun y => decide (p y)) := by
        simp [List.filter_cons, hx]
      rw [hfil]

theorem le_foldl_max (l : List ℤ) : ∀ a : ℤ, a ≤ l.foldl (fun m x => max m x) a := by
  induction l with
  | nil => intro a; simp
  | cons x t ih =>
    intro a
    simp only [List.foldl_cons]
    exact le_trans (le_max_left a x) (ih (max a x))

theorem mem_le_foldl_max (l : List ℤ) : ∀ (a : ℤ) (x : ℤ), x ∈ l →
    x ≤ l.foldl (fun m y => max m y) a := by
  induction l with
  | nil => intro a x hx; simp at hx
  | cons y t ih =>
    intro a x hx
    rcases List.mem_cons.1 hx with h | h
    · subst h
      exact le_trans (le_max_right a x) (le_foldl_max t (max a x))
    · exact ih (max a y) x h

theorem foldl_max_mem (l : List ℤ) : ∀ a : ℤ,
    l.foldl (fun m x => max m x) a = a ∨ l.foldl (fun m x => max m x) a ∈ l := by
  induction l with
  | nil => intro a; simp
  | cons x t ih =>
    intro a
    simp only [List.foldl_cons]
    rcases ih (max a x) with h | h
    · rcases le_total a x with hax | hax
      · right; rw [h, max_eq_right hax]; exact List.mem_cons_self x t
      · left; rw [h, max_eq_left hax]
    · right; exact List.mem_cons_of_mem x h

theorem foldl_min_le (t : List ℕ) : ∀ c : ℕ, t.foldl (fun m x => min m x) c ≤ c := by
  induction t with
  | nil => intro c; simp
  | cons x s ih =>
    intro c
    simp only [List.foldl_cons]
    exact le_trans (ih (min c x)) (min_le_left c x)

theorem le_foldl_max_nat (t : List ℕ) : ∀ c : ℕ, c ≤ t.foldl (fun m x => max m x) c := by
  induction t with
  | nil => intro c; simp
  | cons x s ih =>
    intro c
    simp only [List.foldl_cons]
    exact le_trans (le_max_left c x) (ih (max c x))

theorem foldl_min_mul_le_sum (t : List ℕ) : ∀ c : ℕ,
    (t.length + 1) * (t.foldl (fun m x => min m x) c) ≤ (c :: t).sum := by
  induction t with
  | nil => intro c; simp
  | cons x s ih =>
    intro c
    have hm : s.foldl (fun m y => min m y) (min c x) ≤ min c x := foldl_min_le s (min c x)
    have ihx := ih (min c x)
    simp only [List.foldl_cons, List.sum_cons, List.length_cons] at ihx ⊢
    have h1 : s.foldl (fun m y => min m y) (min c x) ≤ c :=
      le_trans hm (min_le_left c x)
    have h2 : s.foldl (fun m y => min m y) (min c x) ≤ x :=
      le_trans hm (min_le_right c x)
    have hexp : (s.length + 1 + 1) * (s.foldl (fun m y => min m y) (min c x)) =
        (s.length + 1) * (s.foldl (fun m y => min m y) (min c x)) +
          (s.foldl (fun m y => min m y) (min c x)) := by ring
    omega

theorem sum_le_foldl_max_mul (t : List ℕ) : ∀ c : ℕ,
    (c :: t).sum ≤ (t.length + 1) * (t.foldl (fun m x => max m x) c) := by
  induction t with
  | nil => intro c; simp
  | cons x s ih =>
    intro c
    have hm : max c x ≤ s.foldl (fun m y => max m y) (max c x) := le_foldl_max_nat s (max c x)
    have ihx := ih (max c x)
    simp only [List.foldl_cons, List.sum_cons, List.length_cons] at ihx ⊢
    have h1 : c ≤ s.foldl (fun m y => max m y) (max c x) :=
      le_trans (le_max_left c x) hm
    have h2 : x ≤ s.foldl (fun m y => max m y) (max c x) :=
      le_trans (le_max_right c x) hm
    have hexp : (s.length + 1 + 1) * (s.foldl (fun m y => max m y) (max c x)) =
        (s.length + 1) * (s.foldl (fun m y => max m y) (max c x)) +
          (s.foldl (fun m y => max m y) (max c x)) := by ring
    omega

theorem getD_zero_of_all_zero (l : List ℚ) (h : ∀ x ∈ l, x = 0) (i : ℕ) :
    l.getD i 0 = 0 := by
  by_cases hi : i < l.length
  · rw [List.getD_eq_getElem l 0 hi]
    exact h _ (List.getElem_mem hi)
  · exact List.getD_eq_default l 0 (by omega)

theorem sorted_getD_le (l : List ℚ) (hs : List.Sorted (fun a b => a ≤ b) l)
    {i j : ℕ} (hij : i ≤ j) (hj : j < l.length) : l.getD i 0 ≤ l.getD j 0 := by
  have hi : i < l.length := lt_of_le_of_lt hij hj
  rw [List.getD_eq_getElem l 0 hi, List.getD_eq_getElem l 0 hj]
  exact hs.rel_get_of_le (a := ⟨i, hi⟩) (b := ⟨j, hj⟩) hij

/-! ## Helper lemmas: the projection day loop -/

section ProjLoopLemmas

variable (rngVal : ℤ → ℕ → ℚ) (iv bv ai fr db : ℚ) (init : ProjState)

theorem projDay_cashout_some (s : ProjState) (day : ℕ) (c : ℕ) (h : s.cashout = some c) :
    (projDay rngVal iv bv ai fr db s day).cashout = some c := by
  unfold projDay
  split_ifs <;> simp_all

theorem projDay_cashout_none (s : ProjState) (day : ℕ) (h : s.cashout = none) :
    (projDay rngVal iv bv ai fr db s day).cashout =
      if (projDay rngVal iv bv ai fr db s day).balance ≤ 0 then some day else none := by
  unfold projDay
  split_ifs <;> simp_all

theorem projLoop_succ (n : ℕ) :
    projLoop rngVal iv bv ai fr db init (n + 1) =
      projDay rngVal iv bv ai fr db (projLoop rngVal iv bv ai fr db init n) (n + 1) := rfl

theorem projLoop_cashout_persist : ∀ n m c, n ≤ m →
    (projLoop rngVal iv bv ai fr db init n).cashout = some c →
    (projLoop rngVal iv bv ai fr db init m).cashout = some c := by
  intro n m c hnm h
  induction m with
  | zero =>
    have : n = 0 := by omega
    subst this
    exact h
  | succ m ih =>
    by_cases hm : n ≤ m
    · have hc := ih hm
      rw [projLoop_succ]
      exact projDay_cashout_some rngVal iv bv ai fr db _ _ _ hc
    · have : n = m + 1 := by omega
      subst this
      exact h

theorem projLoop_cashout_main (hinit : init.cashout = none) : ∀ n : ℕ,
    ((projLoop rngVal iv bv ai fr db init n).cashout = none ↔
      ∀ e, 1 ≤ e → e ≤ n → 0 < (projLoop rngVal iv bv ai fr db init e).balance)
    ∧ (∀ c, (projLoop rngVal iv bv ai fr db init n).cashout = some c →
        1 ≤ c ∧ c ≤ n ∧ (projLoop rngVal iv bv ai fr db init c).balance ≤ 0 ∧
          ∀ e, 1 ≤ e → e < c → 0 < (projLoop rngVal iv bv ai fr db init e).balance) := by
  intro n
  induction n with
  | zero =>
    constructor
    · constructor
      · intro _ e h1 h2
        omega
      · intro _
        exact hinit
    · intro c hc
      rw [show projLoop rngVal iv bv ai fr db init 0 = init from rfl, hinit] at hc
      exact absurd hc (by simp)
  | succ n ih =>
    rcases hc : (projLoop rngVal iv bv ai fr db init n).cashout with _ | c0
    · -- no cashout within the first n days
      have hall : ∀ e, 1 ≤ e → e ≤ n →
          0 < (projLoop rngVal iv bv ai fr db init e).balance := ih.1.mp hc
      have hstep := projDay_cashout_none rngVal iv bv ai fr db
        (projLoop rngVal iv bv ai fr db init n) (n + 1) hc
      rw [← projLoop_succ] at hstep
      by_cases hb : (projLoop rngVal iv bv ai fr db init (n + 1)).balance ≤ 0
      · rw [if_pos hb] at hstep
        constructor
        · rw [hstep]
          constructor
          · intro h
            exact absurd h (by simp)
          · intro h
            exact absurd (hb.trans_lt (h (n + 1) (by omega) (by omega))) (lt_irrefl _)
        · intro c hcc
          rw [hstep] at hcc
          have hcn : c = n + 1 := by
            have := Option.some.inj hcc
            omega
          subst hcn
          refine ⟨by omega, by omega, hb, ?_⟩
          intro e h1 h2
          exact hall e h1 (by omega)
      · rw [if_neg hb] at hstep
        have hbpos : 0 < (projLoop rngVal iv bv ai fr db init (n + 1)).balance := by
          linarith [lt_of_not_le hb]
        constructor
        · rw [hstep]
          constructor
          · intro _ e h1 h2
            rcases Nat.lt_succ_iff_lt_or_eq.mp (Nat.lt_succ_of_le h2) with h | h
            · exact hall e h1 (by omega)
            · subst h
              exact hbpos
          · intro _
            rfl
        · intro c hcc
          rw [hstep] at hcc
          exact absurd hcc (by simp)
    · -- cashed out at day c0 already within the first n days
      have hsome : (projLoop rngVal iv bv ai fr db init (n + 1)).cashout = some c0 := by
        rw [projLoop_succ]
        exact projDay_cashout_some rngVal iv bv ai fr db _ _ _ hc
      have hprops := ih.2 c0 hc
      constructor
      · rw [hsome]
        constructor
        · intro h
          exact absurd h (by simp)
        · intro h
          exact absurd (hprops.2.2.1.trans_lt
            (h c0 hprops.1 (by omega))) (lt_irrefl _)
      · intro c hcc
        rw [hsome] at hcc
        have : c = c0 := (Option.some.inj hcc).symm
        subst this
        exact ⟨hprops.1, by omega, hprops.2.2.1, hprops.2.2.2⟩

theorem projLoop_cashout_iff (hinit : init.cashout = none) (n c : ℕ) :
    (projLoop rngVal iv bv ai fr db init n).cashout = some c ↔
      (1 ≤ c ∧ c ≤ n ∧ (projLoop rngVal iv bv ai fr db init c).balance ≤ 0 ∧
        ∀ e, 1 ≤ e → e < c → 0 < (projLoop rngVal iv bv ai fr db init e).balance) := by
  constructor
  · exact (projLoop_cashout_main rngVal iv bv ai fr db init hinit n).2 c
  · rintro ⟨h1, h2, h3, h4⟩
    obtain ⟨d, rfl⟩ : ∃ d, c = d + 1 := ⟨c - 1, by omega⟩
    have hnone : (projLoop rngVal iv bv ai fr db init d).cashout = none := by
      apply (projLoop_cashout_main rngVal iv bv ai fr db init hinit d).1.mpr
      intro e he1 he2
      exact h4 e he1 (by omega)
    have hstep := projDay_cashout_none rngVal iv bv ai fr db
      (projLoop rngVal iv bv ai fr db init d) (d + 1) hnone
    rw [← projLoop_succ, if_pos h3] at hstep
    exact projLoop_cashout_persist rngVal iv bv ai fr db init (d + 1) n (d + 1) h2 hstep

end ProjLoopLemmas

/-! ## Helper lemmas: the Monte Carlo run loop -/

theorem filterMap_singleton_toList {α β : Type} (f : α → Option β) (a : α) :
    List.filterMap f [a] = (f a).toList := by
  cases h : f a <;> simp [List.filterMap_cons, h, Option.toList]

theorem project_cash_flow_seeded_irrel (rngVal : ℤ → ℕ → ℚ) (tx : List Transaction)
    (pd wd : ℕ) (iv bv : ℚ) (s : ℤ) (g1 g2 : RandState) :
    project_cash_flow rngVal tx pd wd iv bv (some s) g1 =
      project_cash_flow rngVal tx pd wd iv bv (some s) g2 := by
  simp [project_cash_flow, seedEffect]

theorem mcLoop_seeded_runs (rngVal : ℤ → ℕ → ℚ) (tx : List Transaction)
    (pd wd : ℕ) (iv bv : ℚ) (s : ℤ) : ∀ (k : ℕ) (g : RandState),
    (mcLoop rngVal tx pd wd iv bv (some s) k g).1 =
      (List.range k).map (fun (i : ℕ) =>
        endingBalance (project_cash_flow rngVal tx pd wd iv bv (some (s + (i : ℤ))) ⟨0, 0⟩).1.1)
    ∧ (mcLoop rngVal tx pd wd iv bv (some s) k g).2.1 =
      (List.range k).filterMap (fun (i : ℕ) =>
        (project_cash_flow rngVal tx pd wd iv bv (some (s + (i : ℤ))) ⟨0, 0⟩).1.2) := by
  intro k
  induction k with
  | zero => intro g; simp [mcLoop]
  | succ k ih =>
    intro g
    have hseed : (some s).map (fun x => x + (k : ℤ)) = some (s + (k : ℤ)) := by simp
    have hrun :
        project_cash_flow rngVal tx pd wd iv bv (some (s + (k : ℤ)))
          (mcLoop rngVal tx pd wd iv bv (some s) k g).2.2 =
        project_cash_flow rngVal tx pd wd iv bv (some (s + (k : ℤ))) ⟨0, 0⟩ :=
      project_cash_flow_seeded_irrel rngVal tx pd wd iv bv (s + (k : ℤ)) _ _
    constructor
    · show (mcLoop rngVal tx pd wd iv bv (some s) k g).1 ++ _ = _
      rw [hseed, hrun, (ih g).1, List.range_succ, List.map_append]
      simp
    · show (mcLoop rngVal tx pd wd iv bv (some s) k g).2.1 ++ _ = _
      rw [hseed, hrun, (ih g).2, List.range_succ, List.filterMap_append,
        filterMap_singleton_toList]

theorem mcLoop_lengths (rngVal : ℤ → ℕ → ℚ) (tx : List Transaction)
    (pd wd : ℕ) (iv bv : ℚ) (seed : Option ℤ) : ∀ (k : ℕ) (g : RandState),
    (mcLoop rngVal tx pd wd iv bv seed k g).1.length = k ∧
    (mcLoop rngVal tx pd wd iv bv seed k g).2.1.length ≤ k := by
  intro k
  induction k with
  | zero => intro g; simp [mcLoop]
  | succ k ih =>
    intro g
    have htl : ((project_cash_flow rngVal tx pd wd iv bv
        ((seed).map (fun x => x + (k : ℤ)))
        (mcLoop rngVal tx pd wd iv bv seed k g).2.2).1.2).toList.length ≤ 1 := by
      rcases (project_cash_flow rngVal tx pd wd iv bv ((seed).map (fun x => x + (k : ℤ)))
        (mcLoop rngVal tx pd wd iv bv seed k g).2.2).1.2 with _ | c <;> simp [Option.toList]
    constructor
    · show ((mcLoop rngVal tx pd wd iv bv seed k g).1 ++ _).length = k + 1
      rw [List.length_append, (ih g).1]
      simp
    · show ((mcLoop rngVal tx pd wd iv bv seed k g).2.1 ++ _).length ≤ k + 1
      rw [List.length_append]
      have := (ih g).2
      omega

theorem mcLoop_nil (rngVal : ℤ → ℕ → ℚ) (pd wd : ℕ) (iv bv : ℚ) (seed : Option ℤ) :
    ∀ (k : ℕ) (g : RandState),
    (mcLoop rngVal [] pd wd iv bv seed k g).1 = List.replicate k 0 ∧
    (mcLoop rngVal [] pd wd iv bv seed k g).2.1 = [] := by
  intro k
  induction k with
  | zero => intro g; simp [mcLoop]
  | succ k ih =>
    intro g
    have hproj : ∀ (sd : Option ℤ) (g0 : RandState),
        (project_cash_flow rngVal [] pd wd iv bv sd g0).1 = ([], none) := by
      intro sd g0
      simp [project_cash_flow]
    constructor
    · show (mcLoop rngVal [] pd wd iv bv seed k g).1 ++
          [endingBalance (project_cash_flow rngVal [] pd wd iv bv _ _).1.1] = _
      rw [(ih g).1, List.replicate_succ', hproj _ _]
      rfl
    · show (mcLoop rngVal [] pd wd iv bv seed k g).2.1 ++
          ((project_cash_flow rngVal [] pd wd iv bv _ _).1.2).toList = _
      rw [(ih g).2]
      rfl

/-! ## Helper lemmas: nearest-rank percentiles -/

theorem percentile_idx_lt (l : List ℚ) (h0 : l.length ≠ 0) (p : ℚ) :
    Int.toNat (max 0 (min ((l.length : ℤ) - 1)
      (pyRound (p / 100 * ((l.length : ℚ) - 1))))) < l.length := by
  have h1 : max 0 (min ((l.length : ℤ) - 1)
      (pyRound (p / 100 * ((l.length : ℚ) - 1)))) ≤ (l.length : ℤ) - 1 :=
    max_le (by omega) (min_le_left _ _)
  omega

theorem percentile_mono (l : List ℚ) (hs : List.Sorted (fun a b => a ≤ b) l)
    {p q : ℚ} (hpq : p ≤ q) : percentile l p ≤ percentile l q := by
  unfold percentile
  by_cases h0 : l.length = 0
  · rw [if_pos h0, if_pos h0]
  · rw [if_neg h0, if_neg h0]
    have hn1 : (0 : ℚ) ≤ (l.length : ℚ) - 1 := by
      have : 1 ≤ l.length := Nat.one_le_iff_ne_zero.mpr h0
      have : (1 : ℚ) ≤ (l.length : ℚ) := by exact_mod_cast this
      linarith
    have hmul : p / 100 * ((l.length : ℚ) - 1) ≤ q / 100 * ((l.length : ℚ) - 1) := by
      have : p / 100 ≤ q / 100 := by linarith
      nlinarith
    have hij : Int.toNat (max 0 (min ((l.length : ℤ) - 1)
          (pyRound (p / 100 * ((l.length : ℚ) - 1))))) ≤
        Int.toNat (max 0 (min ((l.length : ℤ) - 1)
          (pyRound (q / 100 * ((l.length : ℚ) - 1))))) :=
      Int.toNat_le_toNat (max_le_max le_rfl (min_le_min le_rfl (pyRound_mono hmul)))
    exact sorted_getD_le l hs hij (percentile_idx_lt l h0 q)

theorem getD_head_le_percentile (l : List ℚ) (hs : List.Sorted (fun a b => a ≤ b) l)
    (h0 : l.length ≠ 0) (p : ℚ) : l.getD 0 0 ≤ percentile l p := by
  unfold percentile
  rw [if_neg h0]
  exact sorted_getD_le l hs (Nat.zero_le _) (percentile_idx_lt l h0 p)

theorem percentile_le_getD_last (l : List ℚ) (hs : List.Sorted (fun a b => a ≤ b) l)
    (h0 : l.length ≠ 0) (p : ℚ) : percentile l p ≤ l.getD (l.length - 1) 0 := by
  unfold percentile
  rw [if_neg h0]
  have h1 : max 0 (min ((l.length : ℤ) - 1)
      (pyRound (p / 100 * ((l.length : ℚ) - 1)))) ≤ (l.length : ℤ) - 1 :=
    max_le (by omega) (min_le_left _ _)
  exact sorted_getD_le l hs (by omega) (by omega)

theorem percentile_all_zero (l : List ℚ) (h : ∀ x ∈ l, x = 0) (p : ℚ) :
    percentile l p = 0 := by
  unfold percentile
  by_cases h0 : l.length = 0
  · rw [if_pos h0]
  · rw [if_neg h0]
    exact getD_zero_of_all_zero l h _

/-! ## Claim theorems -/

/-- C5: `risk_level` maps infinite runway to "No Risk", runway < 7 to the
high-risk label, runway in [7, 21) to the medium-risk label, and runway ≥ 21
to the low-risk label; in particular runway = 7.0 classifies as medium risk
(not high) and runway = 21.0 as low risk (not medium).  (The code's label
strings carry a trailing emoji: "High Risk 🔴", "Medium Risk 🟡",
"Low Risk 🟢"; the classification boundaries are exactly as claimed.) -/
theorem risk_level_spec :
    risk_level Runway.inf = "No Risk"
    ∧ (∀ r : ℚ, r < 7 → risk_level (Runway.fin r) = "High Risk 🔴")
    ∧ (∀ r : ℚ, 7 ≤ r → r < 21 → risk_level (Runway.fin r) = "Medium Risk 🟡")
    ∧ (∀ r : ℚ, 21 ≤ r → risk_level (Runway.fin r) = "Low Risk 🟢")
    ∧ risk_level (Runway.fin 7) = "Medium Risk 🟡"
    ∧ risk_level (Runway.fin 21) = "Low Risk 🟢" := by
  refine ⟨rfl, ?_, ?_, ?_, ?_, ?_⟩
  · intro r h
    show (if r < 7 then "High Risk 🔴" else if r < 21 then "Medium Risk 🟡"
      else "Low Risk 🟢") = "High Risk 🔴"
    rw [if_pos h]
  · intro r h1 h2
    show (if r < 7 then "High Risk 🔴" else if r < 21 then "Medium Risk 🟡"
      else "Low Risk 🟢") = "Medium Risk 🟡"
    rw [if_neg (not_lt.mpr h1), if_pos h2]
  · intro r h
    show (if r < 7 then "High Risk 🔴" else if r < 21 then "Medium Risk 🟡"
      else "Low Risk 🟢") = "Low Risk 🟢"
    rw [if_neg (by linarith), if_neg (by linarith)]
  · show (if (7:ℚ) < 7 then "High Risk 🔴" else if (7:ℚ) < 21 then "Medium Risk 🟡"
      else "Low Risk 🟢") = "Medium Risk 🟡"
    norm_num
  · show (if (21:ℚ) < 7 then "High Risk 🔴" else if (21:ℚ) < 21 then "Medium Risk 🟡"
      else "Low Risk 🟢") = "Low Risk 🟢"
    norm_num

/-- Witness for C5 at concrete runway values. -/
theorem risk_level_spec_witness :
    ((3 : ℚ) < 7 ∧ risk_level (Runway.fin 3) = "High Risk 🔴")
    ∧ ((7 : ℚ) ≤ 7 ∧ (7 : ℚ) < 21 ∧ risk_level (Runway.fin 7) = "Medium Risk 🟡")
    ∧ ((21 : ℚ) ≤ 21 ∧ risk_level (Runway.fin 21) = "Low Risk 🟢") :=
  ⟨⟨by norm_num, risk_level_spec.2.1 3 (by norm_num)⟩,
    ⟨by norm_num, by norm_num, risk_level_spec.2.2.1 7 (by norm_num) (by norm_num)⟩,
    ⟨by norm_num, risk_level_spec.2.2.2.1 21 (by norm_num)⟩⟩

/-- C2: for every non-empty transaction sequence and positive `window_days`,
`estimate_burn_rate` returns the sum of `amount` over expense transactions
whose date is ≥ (latest date present − `window_days`), divided by the
configured `window_days` (never by the number of days observed), rounded to
2 decimal places; for the empty sequence it returns 0.  `latestDate` is
indeed the maximum date present (an element, and an upper bound). -/
theorem estimate_burn_rate_spec :
    (∀ (tx : List Transaction) (wd : ℕ), tx ≠ [] → 0 < wd →
      estimate_burn_rate tx wd =
        roundQ2
          ((((tx.filter (fun t =>
              decide (t.type = "expense" ∧ latestDate tx - (wd : ℤ) ≤ t.date))).map
            (fun t => t.amount)).sum) / (wd : ℚ))
      ∧ latestDate tx ∈ tx.map (fun t => t.date)
      ∧ (∀ t ∈ tx, t.date ≤ latestDate tx))
    ∧ (∀ wd : ℕ, estimate_burn_rate [] wd = 0) := by
  constructor
  · intro tx wd hne _
    refine ⟨?_, ?_, ?_⟩
    · show (if tx = [] then 0
        else roundQ2
          ((tx.foldl (fun acc t =>
            if t.type = "expense" ∧ latestDate tx - (wd : ℤ) ≤ t.date
            then acc + t.amount else acc) 0) / (wd : ℚ))) = _
      rw [if_neg hne,
        foldl_if_add (fun t => t.type = "expense" ∧ latestDate tx - (wd : ℤ) ≤ t.date)
          (fun t => t.amount) tx 0, zero_add]
    · match tx, hne with
      | t0 :: rest, _ =>
        show rest.foldl (fun m t => max m t.date) t0.date ∈ _
        rw [← List.foldl_map (fun t => t.date) (fun m x => max m x) rest t0.date]
        rcases foldl_max_mem (rest.map (fun t => t.date)) t0.date with h | h
        · rw [h]
          simp
        · simp only [List.map_cons, List.mem_cons]
          right
          exact h
    · match tx, hne with
      | t0 :: rest, _ =>
        intro t ht
        show t.date ≤ rest.foldl (fun m u => max m u.date) t0.date
        rw [← List.foldl_map (fun u => u.date) (fun m x => max m x) rest t0.date]
        rcases List.mem_cons.mp ht with h | h
        · rw [h]
          exact le_foldl_max _ _
        · exact mem_le_foldl_max (rest.map (fun u => u.date)) t0.date t.date
            (List.mem_map_of_mem (fun u => u.date) h)
  · intro wd
    rfl

/-- Witness for C2: one expense of 60 dated 0 and one income dated 0, window
30 days: burn rate is `round2(60 / 30) = 2`. -/
theorem estimate_burn_rate_spec_witness :
    ([⟨0, 60, "expense"⟩, ⟨0, 100, "income"⟩] : List Transaction) ≠ [] ∧ 0 < 30 ∧
      estimate_burn_rate [⟨0, 60, "expense"⟩, ⟨0, 100, "income"⟩] 30 =
        roundQ2
          (((([⟨0, 60, "expense"⟩, ⟨0, 100, "income"⟩] : List Transaction).filter (fun t =>
              decide (t.type = "expense" ∧
                latestDate [⟨0, 60, "expense"⟩, ⟨0, 100, "income"⟩] - (30 : ℤ) ≤ t.date))).map
            (fun t => t.amount)).sum / (30 : ℚ)) ∧
      estimate_burn_rate [⟨0, 60, "expense"⟩, ⟨0, 100, "income"⟩] 30 = 2 :=
  ⟨by decide, by decide,
    (estimate_burn_rate_spec.1 [⟨0, 60, "expense"⟩, ⟨0, 100, "income"⟩] 30
      (by decide) (by decide)).1,
    by with_unfolding_all decide⟩

/-- C6: for every transaction sequence and scenario in {base, optimistic,
conservative}, `apply_scenario_modifiers` returns one output transaction per
input transaction (same length), each preserving the input's date and kind,
with amount scaled by the scenario factor (base: 1.00/1.00; optimistic:
income 1.15, expense 0.95; conservative: income 0.85, expense 1.10).  The
embedding is pure, so the input transactions are not mutated; the output is
a fresh list determined by the map below. -/
theorem apply_scenario_modifiers_spec (tx : List Transaction) (scenario : String)
    (hs : scenario = "base" ∨ scenario = "optimistic" ∨ scenario = "conservative") :
    apply_scenario_modifiers tx scenario =
      tx.map (fun t => { t with amount := t.amount * scenarioFactor scenario t.type })
    ∧ (apply_scenario_modifiers tx scenario).length = tx.length
    ∧ scenarioFactor "base" "income" = 1 ∧ scenarioFactor "base" "expense" = 1
    ∧ scenarioFactor "optimistic" "income" = 1.15
    ∧ scenarioFactor "optimistic" "expense" = 0.95
    ∧ scenarioFactor "conservative" "income" = 0.85
    ∧ scenarioFactor "conservative" "expense" = 1.10 := by
  have hmap : apply_scenario_modifiers tx scenario =
      tx.map (fun t => { t with amount := t.amount * scenarioFactor scenario t.type }) := by
    unfold apply_scenario_modifiers scenarioFactor
    apply List.map_congr_left
    intro t _
    rcases hs with h | h | h <;> subst h <;> split_ifs <;> simp_all
  refine ⟨hmap, ?_, ?_, ?_, ?_, ?_, ?_, ?_⟩
  · rw [hmap, List.length_map]
  all_goals with_unfolding_all decide

/-- Witness for C6 with the optimistic scenario on a two-element ledger. -/
theorem apply_scenario_modifiers_spec_witness :
    (("optimistic" : String) = "base" ∨ ("optimistic" : String) = "optimistic" ∨
      ("optimistic" : String) = "conservative")
    ∧ apply_scenario_modifiers [⟨0, 100, "income"⟩, ⟨1, 40, "expense"⟩] "optimistic" =
      ([⟨0, 100, "income"⟩, ⟨1, 40, "expense"⟩] : List Transaction).map
        (fun t => { t with amount := t.amount * scenarioFactor "optimistic" t.type }) :=
  ⟨Or.inr (Or.inl rfl),
    (apply_scenario_modifiers_spec [⟨0, 100, "income"⟩, ⟨1, 40, "expense"⟩] "optimistic"
      (Or.inr (Or.inl rfl))).1⟩

/-- C7 counterexample: the claim says an unknown scenario name is rejected
with a configuration error rather than returning a result, but the code
silently returns the transactions with unmodified amounts: for the unknown
name "aggressive" the function returns the input list unchanged. -/
theorem apply_scenario_modifiers_unknown_counterexample :
    apply_scenario_modifiers [⟨0, 100, "income"⟩] "aggressive" = [⟨0, 100, "income"⟩] := by
  with_unfolding_all decide

/-- C7 (amended): for every scenario name outside {base, optimistic,
conservative}, `apply_scenario_modifiers` returns the input transactions
with unmodified amounts (silent fallthrough); no configuration error is
raised. -/
theorem apply_scenario_modifiers_unknown (tx : List Transaction) (scenario : String)
    (h1 : scenario ≠ "base") (h2 : scenario ≠ "optimistic")
    (h3 : scenario ≠ "conservative") :
    apply_scenario_modifiers tx scenario = tx := by
  unfold apply_scenario_modifiers
  simp [h2, h3]

/-- Witness for the amended C7 at the unknown name "aggressive". -/
theorem apply_scenario_modifiers_unknown_witness :
    ("aggressive" : String) ≠ "base" ∧ ("aggressive" : String) ≠ "optimistic"
    ∧ ("aggressive" : String) ≠ "conservative"
    ∧ apply_scenario_modifiers [⟨2, 5, "expense"⟩] "aggressive" = [⟨2, 5, "expense"⟩] :=
  ⟨by decide, by decide, by decide,
    apply_scenario_modifiers_unknown [⟨2, 5, "expense"⟩] "aggressive"
      (by decide) (by decide) (by decide)⟩

/-- C9: on the empty transaction sequence no operation errors (all are total
here and produce the stated values): `calculate_cash_flow` returns all-zero
totals, `estimate_burn_rate` returns 0, `project_cash_flow` returns an empty
projection and no cashout day, and the Monte Carlo summary has
`probability_cashout = 0`, `cashout_count = 0` and every ending-balance
statistic (worst, p10, median, p90, best) equal to 0, for every parameter
set, seed, generator and incoming generator state. -/
theorem empty_transactions_spec (rngVal : ℤ → ℕ → ℚ) (pd wd : ℕ) (iv bv : ℚ)
    (seed : Option ℤ) (g : RandState) (sims : ℤ) :
    calculate_cash_flow [] = ⟨0, 0, 0⟩
    ∧ estimate_burn_rate [] wd = 0
    ∧ (project_cash_flow rngVal [] pd wd iv bv seed g).1 = ([], none)
    ∧ (run_monte_carlo_simulation rngVal [] sims pd wd iv bv seed g).1.probability_cashout = 0
    ∧ (run_monte_carlo_simulation rngVal [] sims pd wd iv bv seed g).1.cashout_count = 0
    ∧ (run_monte_carlo_simulation rngVal [] sims pd wd iv bv seed g).1.ending_balance_worst = 0
    ∧ (run_monte_carlo_simulation rngVal [] sims pd wd iv bv seed g).1.ending_balance_p10 = 0
    ∧ (run_monte_carlo_simulation rngVal [] sims pd wd iv bv seed g).1.ending_balance_median = 0
    ∧ (run_monte_carlo_simulation rngVal [] sims pd wd iv bv seed g).1.ending_balance_p90 = 0
    ∧ (run_monte_carlo_simulation rngVal [] sims pd wd iv bv seed g).1.ending_balance_best = 0 := by
  obtain ⟨he, hc⟩ := mcLoop_nil rngVal pd wd iv bv seed sims.toNat g
  have hall : ∀ x ∈ List.insertionSort (fun a b => a ≤ b)
      (mcLoop rngVal [] pd wd iv bv seed sims.toNat g).1, x = (0 : ℚ) := by
    intro x hx
    rw [he] at hx
    exact (List.mem_replicate.mp ((List.mem_insertionSort _).1 hx)).2
  refine ⟨by with_unfolding_all decide, rfl, by simp [project_cash_flow], ?_, ?_, ?_, ?_, ?_, ?_, ?_⟩
  · simp only [run_monte_carlo_simulation]
    simp [hc, roundQ4_zero]
  · simp only [run_monte_carlo_simulation]
    simp [hc]
  · simp only [run_monte_carlo_simulation]
    by_cases h0 : (List.insertionSort (fun a b => a ≤ b)
        (mcLoop rngVal [] pd wd iv bv seed sims.toNat g).1).length = 0
    · rw [if_neg (not_not_intro h0)]
    · rw [if_pos h0, getD_zero_of_all_zero _ hall 0, roundQ2_zero]
  · simp only [run_monte_carlo_simulation]
    rw [percentile_all_zero _ hall, roundQ2_zero]
  · simp only [run_monte_carlo_simulation]
    rw [percentile_all_zero _ hall, roundQ2_zero]
  · simp only [run_monte_carlo_simulation]
    rw [percentile_all_zero _ hall, roundQ2_zero]
  · simp only [run_monte_carlo_simulation]
    by_cases h0 : (List.insertionSort (fun a b => a ≤ b)
        (mcLoop rngVal [] pd wd iv bv seed sims.toNat g).1).length = 0
    · rw [if_neg (not_not_intro h0)]
    · rw [if_pos h0, getD_zero_of_all_zero _ hall _, roundQ2_zero]

/-- C8 counterexample: the claim says `simulations <= 0` is rejected with an
invalid-configuration error instead of producing a summary, but the code
performs no validation: with `simulations = 0` it returns a degenerate
summary (probability 0, all percentiles 0, no cashout statistics). -/
theorem run_monte_carlo_zero_sims_counterexample :
    (run_monte_carlo_simulation (fun _ _ => 1/2) [⟨0, 100, "income"⟩] 0 60 30
        (1/10) (1/20) (some 42) ⟨0, 0⟩).1 =
      ⟨0, 60, 30, 1/10, 1/20, 0, 0, 0, 0, 0, 0, 0, none, none, none⟩ := by
  with_unfolding_all decide

/-- C8 (amended): for `simulations <= 0` the orchestrator does not reject;
it runs zero simulations and returns a summary echoing the configuration
with `probability_cashout = 0`, `cashout_count = 0`, all ending-balance
statistics 0 and absent cashout-day statistics. -/
theorem run_monte_carlo_nonpositive_sims (rngVal : ℤ → ℕ → ℚ)
    (tx : List Transaction) (pd wd : ℕ) (iv bv : ℚ) (seed : Option ℤ)
    (g : RandState) (sims : ℤ) (h : sims ≤ 0) :
    (run_monte_carlo_simulation rngVal tx sims pd wd iv bv seed g).1 =
      ⟨sims, pd, wd, iv, bv, 0, 0, 0, 0, 0, 0, 0, none, none, none⟩ := by
  have h0 : sims.toNat = 0 := Int.toNat_eq_zero.mpr h
  have hns : ¬0 < sims := by omega
  simp only [run_monte_carlo_simulation, h0, mcLoop, if_neg hns]
  have hp : ∀ p : ℚ, percentile [] p = 0 := fun p => rfl
  simp [percentile, roundQ2_zero, roundQ4_zero]

/-- Witness for the amended C8 at `simulations = -3`. -/
theorem run_monte_carlo_nonpositive_sims_witness :
    (-3 : ℤ) ≤ 0 ∧
      (run_monte_carlo_simulation (fun _ _ => 0) [] (-3) 1 1 0 0 none ⟨0, 0⟩).1 =
        ⟨-3, 1, 1, 0, 0, 0, 0, 0, 0, 0, 0, 0, none, none, none⟩ :=
  ⟨by decide, run_monte_carlo_nonpositive_sims (fun _ _ => 0) [] 1 1 0 0 none ⟨0, 0⟩ (-3)
    (by decide)⟩

/-- C1: with a non-null base seed, the Monte Carlo summary is independent of
the incoming global random-generator state — two invocations with identical
inputs and identical base seed produce identical summaries even though each
run mutates the shared generator — and the run loop uses exactly the derived
per-run seed `base_seed + i` for run index `i` in `0 .. simulations-1`: the
collected ending balances are the per-run results at seeds
`s, s+1, ..., s+simulations-1`, independent of any prior generator state, so
the sequence of per-run seeds depends only on the base seed. -/
theorem run_monte_carlo_deterministic (rngVal : ℤ → ℕ → ℚ) (tx : List Transaction)
    (sims : ℤ) (pd wd : ℕ) (iv bv : ℚ) (s : ℤ) (g1 g2 g3 : RandState) :
    (run_monte_carlo_simulation rngVal tx sims pd wd iv bv (some s) g1).1 =
      (run_monte_carlo_simulation rngVal tx sims pd wd iv bv (some s) g2).1
    ∧ (mcLoop rngVal tx pd wd iv bv (some s) sims.toNat g3).1 =
      (List.range sims.toNat).map (fun (i : ℕ) =>
        endingBalance
          (project_cash_flow rngVal tx pd wd iv bv (some (s + (i : ℤ))) ⟨0, 0⟩).1.1) := by
  constructor
  · obtain ⟨he1, hc1⟩ := mcLoop_seeded_runs rngVal tx pd wd iv bv s sims.toNat g1
    obtain ⟨he2, hc2⟩ := mcLoop_seeded_runs rngVal tx pd wd iv bv s sims.toNat g2
    simp only [run_monte_carlo_simulation]
    rw [he1, hc1, he2, hc2]
  · exact (mcLoop_seeded_runs rngVal tx pd wd iv bv s sims.toNat g3).1

/-- C4: for every transaction sequence, every parameter set, every seed and
every generator, the Monte Carlo summary satisfies
`ending_balance_p10 ≤ ending_balance_median ≤ ending_balance_p90`, because
each percentile selects by the nearest-rank clamped index into the
ascending-sorted ending balances. -/
theorem run_monte_carlo_percentiles_monotone (rngVal : ℤ → ℕ → ℚ)
    (tx : List Transaction) (sims : ℤ) (pd wd : ℕ) (iv bv : ℚ)
    (seed : Option ℤ) (g : RandState) :
    (run_monte_carlo_simulation rngVal tx sims pd wd iv bv seed g).1.ending_balance_p10 ≤
      (run_monte_carlo_simulation rngVal tx sims pd wd iv bv seed g).1.ending_balance_median
    ∧ (run_monte_carlo_simulation rngVal tx sims pd wd iv bv seed g).1.ending_balance_median ≤
      (run_monte_carlo_simulation rngVal tx sims pd wd iv bv seed g).1.ending_balance_p90 := by
  simp only [run_monte_carlo_simulation]
  have hs : List.Sorted (fun a b => a ≤ b)
      (List.insertionSort (fun a b => a ≤ b)
        (mcLoop rngVal tx pd wd iv bv seed sims.toNat g).1) :=
    List.sorted_insertionSort _ _
  exact ⟨roundQ2_mono (percentile_mono _ hs (by norm_num)),
    roundQ2_mono (percentile_mono _ hs (by norm_num))⟩

set_option maxRecDepth 8000

/-- C3 counterexample: the claim says `cashout_day` is the first day whose
RECORDED projected balance (the 2-decimal-rounded value stored in the
projection) is ≤ 0.  The code tests the unrounded running balance instead:
with income `1025/512` and expense `2` on day 0, `window_days = 1` and zero
volatility, the day-1 running balance is `1/256 > 0` but its recorded value
rounds to `0 ≤ 0` — the projection's only point has
`projected_balance = 0 ≤ 0`, yet `cashout_day` is `none`, not day 1. -/
theorem project_cash_flow_recorded_counterexample :
    (project_cash_flow (fun _ _ => 0)
        [⟨0, 1025/512, "income"⟩, ⟨0, 2, "expense"⟩] 1 1 0 0 (some 0) ⟨0, 0⟩).1.1 =
      [⟨1, 0⟩]
    ∧ (∃ pt ∈ (project_cash_flow (fun _ _ => 0)
        [⟨0, 1025/512, "income"⟩, ⟨0, 2, "expense"⟩] 1 1 0 0 (some 0) ⟨0, 0⟩).1.1,
          pt.projected_balance ≤ 0)
    ∧ (project_cash_flow (fun _ _ => 0)
        [⟨0, 1025/512, "income"⟩, ⟨0, 2, "expense"⟩] 1 1 0 0 (some 0) ⟨0, 0⟩).1.2 =
      none := by
  refine ⟨?_, ⟨⟨1, 0⟩, ?_, le_refl 0⟩, ?_⟩
  · with_unfolding_all decide
  · with_unfolding_all decide
  · with_unfolding_all decide

/-- C3 (amended): `cashout_day` is the first day at which the RUNNING
projected balance (before the 2-decimal rounding applied to the recorded
point) is ≤ 0, or absent if no such day occurs within `projection_days`;
and once set it never changes for the remainder of the run, even if the
balance later recovers (first-crossing semantics). -/
theorem project_cash_flow_cashout_spec (rngVal : ℤ → ℕ → ℚ)
    (tx : List Transaction) (pd wd : ℕ) (iv bv : ℚ) (seed : Option ℤ)
    (g : RandState) (h : tx ≠ []) :
    (∀ c : ℕ,
      (project_cash_flow rngVal tx pd wd iv bv seed g).1.2 = some c ↔
        (1 ≤ c ∧ c ≤ pd ∧
          (projLoop rngVal iv bv (incomeStats tx wd).1 (incomeStats tx wd).2
            (estimate_burn_rate tx wd) (projInit tx (seedEffect seed g)) c).balance ≤ 0 ∧
          ∀ e, 1 ≤ e → e < c →
            0 < (projLoop rngVal iv bv (incomeStats tx wd).1 (incomeStats tx wd).2
              (estimate_burn_rate tx wd) (projInit tx (seedEffect seed g)) e).balance))
    ∧ (∀ n m c, n ≤ m →
        (projLoop rngVal iv bv (incomeStats tx wd).1 (incomeStats tx wd).2
          (estimate_burn_rate tx wd) (projInit tx (seedEffect seed g)) n).cashout = some c →
        (projLoop rngVal iv bv (incomeStats tx wd).1 (incomeStats tx wd).2
          (estimate_burn_rate tx wd) (projInit tx (seedEffect seed g)) m).cashout = some c) := by
  constructor
  · intro c
    have hproj : (project_cash_flow rngVal tx pd wd iv bv seed g).1.2 =
        (projLoop rngVal iv bv (incomeStats tx wd).1 (incomeStats tx wd).2
          (estimate_burn_rate tx wd) (projInit tx (seedEffect seed g)) pd).cashout := by
      simp only [project_cash_flow, if_neg h]
    rw [hproj]
    exact projLoop_cashout_iff rngVal iv bv (incomeStats tx wd).1 (incomeStats tx wd).2
      (estimate_burn_rate tx wd) (projInit tx (seedEffect seed g)) rfl pd c
  · intro n m c hnm
    exact projLoop_cashout_persist rngVal iv bv (incomeStats tx wd).1 (incomeStats tx wd).2
      (estimate_burn_rate tx wd) (projInit tx (seedEffect seed g)) n m c hnm

/-- Witness for the amended C3: one expense of 2 dated 0, two projection
days, zero volatility: the day-1 balance is `-4 ≤ 0`, so `cashout_day = 1`
by the first-crossing characterization. -/
theorem project_cash_flow_cashout_spec_witness :
    ([⟨0, 2, "expense"⟩] : List Transaction) ≠ [] ∧
      (project_cash_flow (fun _ _ => 0) [⟨0, 2, "expense"⟩] 2 1 0 0 (some 5) ⟨0, 0⟩).1.2 =
        some 1 :=
  ⟨by decide,
    ((project_cash_flow_cashout_spec (fun _ _ => 0) [⟨0, 2, "expense"⟩] 2 1 0 0
        (some 5) ⟨0, 0⟩ (by decide)).1 1).mpr
      ⟨le_refl 1, by omega, by with_unfolding_all decide, by omega⟩⟩

/-- C10: for `simulations ≥ 1` the summary satisfies
`0 ≤ probability_cashout ≤ 1`, `0 ≤ cashout_count ≤ simulations`,
`ending_balance_worst ≤ ending_balance_p10`,
`ending_balance_p90 ≤ ending_balance_best`, and when `cashout_count > 0`
`min_cashout_day ≤ avg_cashout_day ≤ max_cashout_day`, all three being
absent when `cashout_count = 0`. -/
theorem run_monte_carlo_invariants (rngVal : ℤ → ℕ → ℚ) (tx : List Transaction)
    (pd wd : ℕ) (iv bv : ℚ) (seed : Option ℤ) (g : RandState) (sims : ℤ)
    (S : Summary) (hsims : 1 ≤ sims)
    (hS : S = (run_monte_carlo_simulation rngVal tx sims pd wd iv bv seed g).1) :
    0 ≤ S.probability_cashout ∧ S.probability_cashout ≤ 1
    ∧ (S.cashout_count : ℤ) ≤ sims
    ∧ S.ending_balance_worst ≤ S.ending_balance_p10
    ∧ S.ending_balance_p90 ≤ S.ending_balance_best
    ∧ (S.cashout_count = 0 →
        S.avg_cashout_day = none ∧ S.min_cashout_day = none ∧ S.max_cashout_day = none)
    ∧ (0 < S.cashout_count →
        ∃ (mn mx : ℕ) (a : ℚ), S.min_cashout_day = some mn ∧ S.max_cashout_day = some mx
          ∧ S.avg_cashout_day = some a ∧ (mn : ℚ) ≤ a ∧ a ≤ (mx : ℚ)) := by
  subst hS
  obtain ⟨hlen, hclen⟩ := mcLoop_lengths rngVal tx pd wd iv bv seed sims.toNat g
  simp only [run_monte_carlo_simulation]
  have hsort : List.Sorted (fun a b => a ≤ b)
      (List.insertionSort (fun a b => a ≤ b)
        (mcLoop rngVal tx pd wd iv bv seed sims.toNat g).1) :=
    List.sorted_insertionSort _ _
  have hslen : (List.insertionSort (fun a b => a ≤ b)
      (mcLoop rngVal tx pd wd iv bv seed sims.toNat g).1).length = sims.toNat := by
    rw [List.length_insertionSort, hlen]
  have hne : (List.insertionSort (fun a b => a ≤ b)
      (mcLoop rngVal tx pd wd iv bv seed sims.toNat g).1).length ≠ 0 := by omega
  have hpos : (0 : ℤ) < sims := by omega
  have hposq : (0 : ℚ) < (sims : ℚ) := by exact_mod_cast hpos
  refine ⟨?_, ?_, ?_, ?_, ?_, ?_, ?_⟩
  · rw [if_pos hpos, ← roundQ4_zero]
    exact roundQ4_mono (div_nonneg (Nat.cast_nonneg _) hposq.le)
  · rw [if_pos hpos, ← roundQ4_one]
    apply roundQ4_mono
    rw [div_le_one hposq]
    have hz : ((mcLoop rngVal tx pd wd iv bv seed sims.toNat g).2.1.length : ℤ) ≤ sims := by
      omega
    exact_mod_cast hz
  · omega
  · rw [if_pos hne]
    exact roundQ2_mono (getD_head_le_percentile _ hsort hne 10)
  · rw [if_pos hne]
    exact roundQ2_mono (percentile_le_getD_last _ hsort hne 90)
  · intro h0
    rcases hc2 : (mcLoop rngVal tx pd wd iv bv seed sims.toNat g).2.1 with _ | ⟨c, cs⟩
    · exact ⟨rfl, rfl, rfl⟩
    · rw [hc2] at h0
      simp at h0
  · intro h0
    rcases hc2 : (mcLoop rngVal tx pd wd iv bv seed sims.toNat g).2.1 with _ | ⟨c, cs⟩
    · rw [hc2] at h0
      simp at h0
    · refine ⟨cs.foldl (fun m x => min m x) c, cs.foldl (fun m x => max m x) c,
        roundQ2 (((c :: cs).sum : ℚ) / ((c :: cs).length : ℚ)), rfl, rfl, rfl, ?_, ?_⟩
      · have hmin := foldl_min_mul_le_sum cs c
        have hlpos : (0 : ℚ) < ((c :: cs).length : ℚ) := by
          simp [List.length_cons]
          positivity
        have hq : ((cs.foldl (fun m x => min m x) c : ℕ) : ℚ) ≤
            ((c :: cs).sum : ℚ) / ((c :: cs).length : ℚ) := by
          rw [le_div_iff hlpos]
          have : (cs.foldl (fun m x => min m x) c) * (c :: cs).length ≤ (c :: cs).sum := by
            rw [List.length_cons, Nat.mul_comm]
            exact foldl_min_mul_le_sum cs c
          exact_mod_cast this
        calc ((cs.foldl (fun m x => min m x) c : ℕ) : ℚ)
            = roundQ2 ((cs.foldl (fun m x => min m x) c : ℕ) : ℚ) := (roundQ2_natCast _).symm
          _ ≤ roundQ2 (((c :: cs).sum : ℚ) / ((c :: cs).length : ℚ)) := roundQ2_mono hq
      · have hlpos : (0 : ℚ) < ((c :: cs).length : ℚ) := by
          simp [List.length_cons]
          positivity
        have hq : ((c :: cs).sum : ℚ) / ((c :: cs).length : ℚ) ≤
            ((cs.foldl (fun m x => max m x) c : ℕ) : ℚ) := by
          rw [div_le_iff hlpos]
          have : (c :: cs).sum ≤ (cs.foldl (fun m x => max m x) c) * (c :: cs).length := by
            rw [List.length_cons, Nat.mul_comm]
            exact sum_le_foldl_max_mul cs c
          exact_mod_cast this
        calc roundQ2 (((c :: cs).sum : ℚ) / ((c :: cs).length : ℚ))
            ≤ roundQ2 ((cs.foldl (fun m x => max m x) c : ℕ) : ℚ) := roundQ2_mono hq
          _ = ((cs.foldl (fun m x => max m x) c : ℕ) : ℚ) := roundQ2_natCast _

/-- Witness for C10: one simulation over the empty ledger. -/
theorem run_monte_carlo_invariants_witness :
    (1 : ℤ) ≤ 1
    ∧ (⟨1, 1, 1, 0, 0, 0, 0, 0, 0, 0, 0, 0, none, none, none⟩ : Summary) =
        (run_monte_carlo_simulation (fun _ _ => 0) [] 1 1 1 0 0 none ⟨0, 0⟩).1
    ∧ ((0 : ℚ) ≤ 0 ∧ (0 : ℚ) ≤ 1
        ∧ (((0 : ℕ) : ℤ)) ≤ 1
        ∧ (0 : ℚ) ≤ 0
        ∧ (0 : ℚ) ≤ 0
        ∧ ((0 : ℕ) = 0 →
            (none : Option ℚ) = none ∧ (none : Option ℕ) = none ∧ (none : Option ℕ) = none)
        ∧ (0 < (0 : ℕ) →
            ∃ (mn mx : ℕ) (a : ℚ), (none : Option ℕ) = some mn
              ∧ (none : Option ℕ) = some mx ∧ (none : Option ℚ) = some a
              ∧ (mn : ℚ) ≤ a ∧ a ≤ (mx : ℚ))) :=
  ⟨by decide, by with_unfolding_all decide,
    run_monte_carlo_invariants (fun _ _ => 0) [] 1 1 0 0 none ⟨0, 0⟩ 1
      ⟨1, 1, 1, 0, 0, 0, 0, 0, 0, 0, 0, 0, none, none, none⟩ (by decide)
      (by with_unfolding_all decide)⟩
